import Mathlib

/-!
Shallow embedding of the directory service (organizations, buildings,
hierarchical activity categories) and proofs of its specified properties.

Tables are embedded as Lean lists of records; SQL queries become list
computations; HTTP error responses become an `Except` error value carrying
the status code and detail string.  Numeric coordinates are embedded as
rationals.  The many-to-many association tables (organization to phone /
activity) are represented by the per-organization `phones` and `activities`
lists, which mirror the association rows for that organization.
-/

namespace DirectoryApp

/-- A row of the `activities` table: id, name, optional parent id, level. -/
structure Activity where
  id : Nat
  name : String
  parent_id : Option Nat
  level : Nat
deriving DecidableEq, Repr

/-- A row of the `buildings` table. -/
structure Building where
  id : Nat
  address : String
  latitude : ℚ
  longitude : ℚ
deriving DecidableEq, Repr

/-- A row of the `organizations` table, together with its association rows:
`phones` holds the numbers linked through `organization_phones` (a phone is
keyed by its unique number) and `activities` holds the activity ids linked
through `organization_activities`. -/
structure Organization where
  id : Nat
  name : String
  building_id : Nat
  phones : List String
  activities : List Nat
deriving DecidableEq, Repr

/-- An HTTP error response (`HTTPException(status_code, detail)`). -/
inductive ApiError where
  | http (status : Nat) (detail : String)
deriving DecidableEq, Repr

/-- The ids of the direct children of node `p`: activities whose `parent_id`
is `p` (the recursive arm of the CTE joins on `parent_id == cte.id`). -/
def childrenOf (acts : List Activity) (p : Nat) : List Nat :=
  (acts.filter (fun a => a.parent_id == some p)).map (fun a => a.id)

/-- The rows produced by the recursive CTE of `get_activity_descendants`,
level by level: `frontier` holds the ids of the rows produced at the current
level, `budget` is the number of recursive expansions still allowed
(a row at level `L` is expanded only while `L < max_level`). -/
def cteRows (acts : List Activity) : List Nat → Nat → List Nat
  | frontier, 0 => frontier
  | frontier, b + 1 =>
      frontier ++ cteRows acts (frontier.flatMap (childrenOf acts)) b

/-- Embedding of `get_activity_descendants` (organization.py): ids of all descendants of
`activity_id` (including `activity_id` itself) up to `max_level` levels, via
the recursive CTE, with a final `DISTINCT`.  The anchor row exists only when
`activity_id` is a stored activity id; the anchor is at level 1 and a row at
level `L` is expanded into its children only while `L < max_level`, so there
are `max_level - 1` expansion rounds. -/
def get_activity_descendants (acts : List Activity) (activity_id : Nat)
    (max_level : Nat) : List Nat :=
  (cteRows acts
    ((acts.filter (fun a => a.id == activity_id)).map (fun a => a.id))
    (max_level - 1)).dedup

/-- Reachability: `ReachLevel acts r x L` means node id `x` is reachable from `r` by following
parent→child edges, with `x` sitting at level `L` counted from `r` at
level 1. -/
inductive ReachLevel (acts : List Activity) : Nat → Nat → Nat → Prop where
  | base (x : Nat) : ReachLevel acts x x 1
  | step (x y z L : Nat) (a : Activity) (ha : a ∈ acts) (hid : a.id = y)
      (hp : a.parent_id = some x) (h : ReachLevel acts y z L) :
      ReachLevel acts x z (L + 1)

theorem ReachLevel.one_le {acts : List Activity} {r x L : Nat}
    (h : ReachLevel acts r x L) : 1 ≤ L := by
  induction h with
  | base => exact le_refl 1
  | step _ _ _ _ _ _ _ _ _ ih => omega

theorem ReachLevel.eq_of_level_one {acts : List Activity} {r x : Nat}
    (h : ReachLevel acts r x 1) : r = x := by
  cases h with
  | base => rfl
  | step _ y _ L a ha hid hp h => exact absurd h.one_le (by omega)

theorem mem_childrenOf {acts : List Activity} {p y : Nat} :
    y ∈ childrenOf acts p ↔ ∃ a ∈ acts, a.id = y ∧ a.parent_id = some p := by
  simp only [childrenOf, List.mem_map, List.mem_filter, beq_iff_eq]
  constructor
  · rintro ⟨a, ⟨ha, hp⟩, hid⟩
    exact ⟨a, ha, hid, hp⟩
  · rintro ⟨a, ha, hid, hp⟩
    exact ⟨a, ⟨ha, hp⟩, hid⟩

/-- Characterisation of the CTE rows: `x` appears among the rows iff it is
reachable from some frontier id at a level within the remaining budget. -/
theorem mem_cteRows {acts : List Activity} :
    ∀ (b : Nat) (f : List Nat) (x : Nat),
      x ∈ cteRows acts f b ↔ ∃ y ∈ f, ∃ L, L ≤ b + 1 ∧ ReachLevel acts y x L := by
  intro b
  induction b with
  | zero =>
    intro f x
    simp only [cteRows]
    constructor
    · intro hx
      exact ⟨x, hx, 1, le_refl 1, ReachLevel.base x⟩
    · rintro ⟨y, hy, L, hL, h⟩
      have h1 : L = 1 := le_antisymm hL h.one_le
      subst h1
      rwa [h.eq_of_level_one] at hy
  | succ b ih =>
    intro f x
    simp only [cteRows, List.mem_append]
    constructor
    · rintro (hx | hx)
      · exact ⟨x, hx, 1, by omega, ReachLevel.base x⟩
      · obtain ⟨y2, hy2, L, hL, h⟩ := (ih _ x).mp hx
        obtain ⟨y, hy, hy2c⟩ := List.mem_flatMap.mp hy2
        obtain ⟨a, ha, hid, hp⟩ := mem_childrenOf.mp hy2c
        exact ⟨y, hy, L + 1, by omega, ReachLevel.step y y2 x L a ha hid hp h⟩
    · rintro ⟨y, hy, L, hL, h⟩
      cases h with
      | base => exact Or.inl hy
      | step _ y2 _ L2 a ha hid hp h2 =>
        refine Or.inr ((ih _ x).mpr ⟨y2, ?_, L2, by omega, h2⟩)
        exact List.mem_flatMap.mpr ⟨y, hy, mem_childrenOf.mpr ⟨a, ha, hid, hp⟩⟩

/-- The four-node chain A(level 1) → B(level 2) → C(level 3) → D(level 4). -/
def chainActs : List Activity :=
  [⟨1, "A", none, 1⟩, ⟨2, "B", some 1, 2⟩, ⟨3, "C", some 2, 3⟩,
   ⟨4, "D", some 3, 4⟩]

theorem mem_descendants_iff {acts : List Activity} {r : Nat}
    (hr : ∃ a ∈ acts, a.id = r) (d : Nat) (hd : 1 ≤ d) (x : Nat) :
    x ∈ get_activity_descendants acts r d ↔
      ∃ L, L ≤ d ∧ ReachLevel acts r x L := by
  rw [get_activity_descendants, List.mem_dedup, mem_cteRows]
  have hbase : ∀ y,
      (y ∈ (acts.filter (fun a => a.id == r)).map (fun a => a.id)) ↔
        (∃ a ∈ acts, a.id = r) ∧ y = r := by
    intro y
    simp only [List.mem_map, List.mem_filter, beq_iff_eq]
    constructor
    · rintro ⟨a, ⟨ha, hid⟩, rfl⟩
      exact ⟨⟨a, ha, hid⟩, hid⟩
    · rintro ⟨⟨a, ha, hid⟩, rfl⟩
      exact ⟨a, ⟨ha, hid⟩, hid⟩
  constructor
  · rintro ⟨y, hy, L, hL, h⟩
    obtain ⟨-, rfl⟩ := (hbase y).mp hy
    exact ⟨L, by omega, h⟩
  · rintro ⟨L, hL, h⟩
    exact ⟨r, (hbase r).mpr ⟨hr, rfl⟩, L, by omega, h⟩

/-- C1: descendant resolution.  For a root id `r` stored in the category
forest, `get_activity_descendants acts r 3` is de-duplicated, contains `r`
itself, and contains exactly the ids reachable from `r` by parent→child
edges at level ≤ 3 (`r` at level 1); on the chain A→B→C→D it returns exactly
`{A, B, C}`, excluding D. -/
theorem get_activity_descendants_spec (acts : List Activity) (r : Nat)
    (hr : ∃ a ∈ acts, a.id = r) :
    (get_activity_descendants acts r 3).Nodup ∧
    r ∈ get_activity_descendants acts r 3 ∧
    (∀ x, x ∈ get_activity_descendants acts r 3 ↔
      ∃ L, L ≤ 3 ∧ ReachLevel acts r x L) ∧
    get_activity_descendants chainActs 1 3 = [1, 2, 3] := by
  refine ⟨List.nodup_dedup _, ?_, fun x => mem_descendants_iff hr 3 (by omega) x, rfl⟩
  exact (mem_descendants_iff hr 3 (by omega) r).mpr ⟨1, by omega, ReachLevel.base r⟩

/-- Witness for C1 at the concrete chain: the root id 1 is stored, and the
resolver returns exactly `[1, 2, 3]` (A, B, C), excluding D. -/
theorem get_activity_descendants_spec_witness :
    1 ∈ get_activity_descendants chainActs 1 3 ∧
    get_activity_descendants chainActs 1 3 = [1, 2, 3] :=
  have h := get_activity_descendants_spec chainActs 1 ⟨⟨1, "A", none, 1⟩, by decide, rfl⟩
  ⟨h.2.1, h.2.2.2⟩

/-- The partial-update schema `ActivityUpdate`: a field holds `some v` when
the patch supplies it and `none` when it is left unset. -/
structure ActivityUpdate where
  name : Option String
  parent_id : Option Nat
  level : Option Nat
deriving DecidableEq, Repr

/-- Embedding of `apply_patch` (utils.py) specialised to an activity: each field that the
patch supplies overwrites the stored field, the rest are untouched. -/
def applyActivityPatch (a : Activity) (p : ActivityUpdate) : Activity :=
  { a with
    name := p.name.getD a.name
    parent_id := match p.parent_id with
      | some v => some v
      | none => a.parent_id
    level := p.level.getD a.level }

/-- Embedding of `update_activity` (activity.py): look the activity up by id (404 when
absent), reject a patch whose `parent_id` equals the target's own id with
HTTP 400 before applying anything, otherwise apply the patch to the stored
row and return the new store. -/
def update_activity (store : List Activity) (activity_id : Nat)
    (patch : ActivityUpdate) : Except ApiError (List Activity) :=
  match store.find? (fun a => a.id == activity_id) with
  | none => .error (ApiError.http 404 "Activity not found")
  | some _ =>
    if patch.parent_id == some activity_id then
      .error (ApiError.http 400 "Нельзя сделать элемент своим же родителем.")
    else
      .ok (store.map (fun a =>
        if a.id == activity_id then applyActivityPatch a patch else a))

/-- C3: self-reference rejection.  For every stored category `c`, an update
whose patch carries `parent_id = c.id` fails with the HTTP 400
"cannot make entity its own parent" error, and no updated store is ever
produced (the store is left unmodified). -/
theorem update_activity_self_parent (store : List Activity) (cid : Nat)
    (patch : ActivityUpdate) (hc : ∃ a ∈ store, a.id = cid)
    (hp : patch.parent_id = some cid) :
    update_activity store cid patch =
      .error (ApiError.http 400 "Нельзя сделать элемент своим же родителем.") ∧
    ∀ store2, update_activity store cid patch ≠ .ok store2 := by
  obtain ⟨a, ha, hid⟩ := hc
  have hfind : (store.find? (fun a => a.id == cid)).isSome :=
    List.find?_isSome.mpr ⟨a, ha, by simp [hid]⟩
  obtain ⟨b, hb⟩ := Option.isSome_iff_exists.mp hfind
  refine ⟨?_, ?_⟩
  · simp [update_activity, hb, hp]
  · intro store2
    simp [update_activity, hb, hp]

/-- Witness for C3: updating category 1 of the chain with a patch carrying
`parent_id = 1` yields exactly the self-reference error. -/
theorem update_activity_self_parent_witness :
    update_activity chainActs 1 ⟨none, some 1, none⟩ =
      .error (ApiError.http 400 "Нельзя сделать элемент своим же родителем.") :=
  (update_activity_self_parent chainActs 1 ⟨none, some 1, none⟩
    ⟨⟨1, "A", none, 1⟩, by decide, rfl⟩ rfl).1

/-- A node of the nested tree view returned by `build_activity_tree`
(the `ActivityRead` schema with its `children` list). -/
inductive ActivityNode where
  | mk (id : Nat) (name : String) (parent_id : Option Nat) (level : Nat)
      (children : List ActivityNode)

def ActivityNode.id : ActivityNode → Nat
  | .mk i _ _ _ _ => i

def ActivityNode.children : ActivityNode → List ActivityNode
  | .mk _ _ _ _ cs => cs

/-- One step of building `activity_map`:
`activity_map.setdefault(act.parent_id, []).append(act)` on an association
list from parent-id keys to the list of their direct children. -/
def setdefaultAppend (m : List (Option Nat × List Activity)) (k : Option Nat)
    (a : Activity) : List (Option Nat × List Activity) :=
  match m with
  | [] => [(k, [a])]
  | (k2, l) :: rest =>
    if k2 == k then (k2, l ++ [a]) :: rest
    else (k2, l) :: setdefaultAppend rest k a

/-- The `activity_map` dictionary of `build_activity_tree`, built by one pass
over the input. -/
def buildMap (activities : List Activity) : List (Option Nat × List Activity) :=
  activities.foldl (fun m a => setdefaultAppend m a.parent_id a) []

/-- Lookup `activity_map.get(parent_id, [])`. -/
def mapGet (m : List (Option Nat × List Activity)) (k : Option Nat) :
    List Activity :=
  match m.find? (fun e => e.1 == k) with
  | some e => e.2
  | none => []

/-- The recursive `build_nodes(parent_id, level)` of `build_activity_tree`,
over an arbitrary source of direct children.  Python recursion returns `[]`
as soon as `level > max_level`; here `fuel = max_level + 1 - level`, so the
call at `level` has fuel `max_level + 1 - level` and fuel 0 means the level
is past the cap. -/
def buildNodes (childSrc : Option Nat → List Activity) :
    Option Nat → Nat → List ActivityNode
  | _, 0 => []
  | p, fuel + 1 =>
    (childSrc p).map (fun act =>
      ActivityNode.mk act.id act.name act.parent_id act.level
        (buildNodes childSrc (some act.id) fuel))

/-- Embedding of `build_activity_tree` (activity.py): group the input once into
`activity_map` keyed by `parent_id`, then emit the nested tree from the
roots (`parent_id = None`, level 1) down to `max_level`, reading only from
the map. -/
def build_activity_tree (activities : List Activity) (max_level : Nat) :
    List ActivityNode :=
  buildNodes (mapGet (buildMap activities)) none max_level

/-- Modelled from the spec: the naive reference scheme that, for each node,
re-filters the full input list for that node's direct children, with the
same depth cap. -/
def naiveBuildNodes (activities : List Activity) :
    Option Nat → Nat → List ActivityNode
  | _, 0 => []
  | p, fuel + 1 =>
    (activities.filter (fun a => a.parent_id == p)).map (fun act =>
      ActivityNode.mk act.id act.name act.parent_id act.level
        (naiveBuildNodes activities (some act.id) fuel))

/-- Modelled from the spec: the naive per-node-refiltering tree build. -/
def build_activity_tree_naive (activities : List Activity) (max_level : Nat) :
    List ActivityNode :=
  naiveBuildNodes activities none max_level

theorem mapGet_nil (k : Option Nat) :
    mapGet ([] : List (Option Nat × List Activity)) k = [] := rfl

theorem mapGet_cons (ke : Option Nat) (le : List Activity)
    (rest : List (Option Nat × List Activity)) (k : Option Nat) :
    mapGet ((ke, le) :: rest) k = if ke = k then le else mapGet rest k := by
  by_cases h : ke = k
  · subst h
    simp [mapGet, List.find?]
  · have hbk : (ke == k) = false := beq_eq_false_iff_ne.mpr h
    simp only [mapGet, List.find?]
    rw [show ((ke, le).1 == k) = false from hbk]
    simp [h]

theorem setdefaultAppend_cons (ke : Option Nat) (le : List Activity)
    (rest : List (Option Nat × List Activity)) (k2 : Option Nat)
    (a : Activity) :
    setdefaultAppend ((ke, le) :: rest) k2 a =
      if ke = k2 then (ke, le ++ [a]) :: rest
      else (ke, le) :: setdefaultAppend rest k2 a := by
  by_cases h : ke = k2
  · have hbk : (ke == k2) = true := beq_iff_eq.mpr h
    simp [setdefaultAppend, hbk, h]
  · have hbk : (ke == k2) = false := beq_eq_false_iff_ne.mpr h
    simp [setdefaultAppend, hbk, h]

theorem mapGet_setdefaultAppend (m : List (Option Nat × List Activity))
    (k k2 : Option Nat) (a : Activity) :
    mapGet (setdefaultAppend m k2 a) k =
      if k = k2 then mapGet m k ++ [a] else mapGet m k := by
  induction m with
  | nil =>
    show mapGet [(k2, [a])] k = _
    rw [mapGet_cons]
    by_cases h : k = k2
    · subst h; simp [mapGet_nil]
    · have h2 : ¬k2 = k := fun e => h e.symm
      simp [h, h2, mapGet_nil]
  | cons e rest ih =>
    obtain ⟨ke, le⟩ := e
    rw [setdefaultAppend_cons]
    by_cases h2 : ke = k2
    · rw [if_pos h2, mapGet_cons, mapGet_cons]
      by_cases h : ke = k
      · have hk : k = k2 := h ▸ h2
        simp [h, hk]
      · have hk2 : ¬k = k2 := fun e => h (h2.symm ▸ e.symm ▸ rfl)
        simp [h, hk2]
    · rw [if_neg h2, mapGet_cons, mapGet_cons]
      by_cases h : ke = k
      · have hk2 : ¬k = k2 := fun e => h2 (h ▸ e ▸ rfl)
        simp [h, hk2]
      · simp only [h, if_false]
        exact ih

theorem mapGet_foldl (activities : List Activity) :
    ∀ (m : List (Option Nat × List Activity)) (k : Option Nat),
      mapGet (activities.foldl (fun m a => setdefaultAppend m a.parent_id a) m) k =
        mapGet m k ++ activities.filter (fun a => a.parent_id == k) := by
  induction activities with
  | nil => intro m k; simp
  | cons a rest ih =>
    intro m k
    simp only [List.foldl_cons, List.filter_cons]
    rw [ih, mapGet_setdefaultAppend]
    by_cases h : k = a.parent_id
    · subst h
      simp [List.append_assoc]
    · have : (a.parent_id == k) = false := by simp [Ne.symm h]
      simp [h, this]

/-- The grouped map agrees pointwise with per-key refiltering of the input. -/
theorem mapGet_buildMap (activities : List Activity) (k : Option Nat) :
    mapGet (buildMap activities) k =
      activities.filter (fun a => a.parent_id == k) := by
  rw [buildMap, mapGet_foldl]
  simp [mapGet, List.find?]

theorem buildNodes_filter_eq_naive (activities : List Activity) :
    ∀ (fuel : Nat) (p : Option Nat),
      buildNodes (fun q => activities.filter (fun a => a.parent_id == q)) p fuel =
        naiveBuildNodes activities p fuel := by
  intro fuel
  induction fuel with
  | zero => intro p; rfl
  | succ fuel ih =>
    intro p
    simp only [buildNodes, naiveBuildNodes]
    exact List.map_congr_left (fun act _ => by rw [ih])

/-- C5: refinement.  The implemented tree build — one grouping pass into a
parent-id map, then recursion reading only from the map — returns exactly
the same nested tree as the naive reference scheme that re-filters the full
input list for each node's children, for every input and depth cap. -/
theorem build_activity_tree_eq_naive (activities : List Activity)
    (max_level : Nat) :
    build_activity_tree activities max_level =
      build_activity_tree_naive activities max_level := by
  rw [build_activity_tree, build_activity_tree_naive,
    ← buildNodes_filter_eq_naive]
  have hfun : mapGet (buildMap activities) =
      fun q => activities.filter (fun a => a.parent_id == q) :=
    funext (fun q => mapGet_buildMap activities q)
  rw [hfun]

/-- The nodes sitting at depth `d` (the forest's own top level is depth 0,
i.e. tree level 1) of an emitted forest. -/
def atDepth : Nat → List ActivityNode → List ActivityNode
  | 0, forest => forest
  | d + 1, forest => forest.flatMap (fun n => atDepth d n.children)

theorem atDepth_nil : ∀ d, atDepth d ([] : List ActivityNode) = [] := by
  intro d
  cases d <;> rfl

theorem mem_atDepth_buildNodes :
    ∀ (fuel : Nat) (childSrc : Option Nat → List Activity) (p : Option Nat)
      (d : Nat) (n : ActivityNode),
      n ∈ atDepth d (buildNodes childSrc p fuel) →
        d + 1 ≤ fuel ∧ (d + 1 = fuel → n.children = []) := by
  intro fuel
  induction fuel with
  | zero =>
    intro childSrc p d n hn
    rw [buildNodes, atDepth_nil] at hn
    exact absurd hn (List.not_mem_nil n)
  | succ fuel ih =>
    intro childSrc p d n hn
    cases d with
    | zero =>
      simp only [atDepth, buildNodes, List.mem_map] at hn
      obtain ⟨act, -, rfl⟩ := hn
      refine ⟨by omega, fun h1 => ?_⟩
      have hf : fuel = 0 := by omega
      subst hf
      rfl
    | succ d =>
      simp only [atDepth, buildNodes, List.mem_flatMap, List.mem_map] at hn
      obtain ⟨m, ⟨act, -, rfl⟩, hm⟩ := hn
      have := ih childSrc (some act.id) d n (by simpa [ActivityNode.children] using hm)
      exact ⟨by omega, fun h1 => this.2 (by omega)⟩

/-- C4: depth-cap truncation.  For every input and cap, every node the build
emits at tree level `max_level` (depth `max_level - 1`) carries an empty
children list, no node is emitted strictly deeper than `max_level`, and on
the chain A→B→C→D with cap 2 the output is A with single child B, B's
children empty even though C exists in the input. -/
theorem build_activity_tree_depth_cap (activities : List Activity)
    (max_level : Nat) :
    (∀ n, n ∈ atDepth (max_level - 1) (build_activity_tree activities max_level) →
      n.children = []) ∧
    (∀ d, max_level ≤ d →
      atDepth d (build_activity_tree activities max_level) = []) ∧
    build_activity_tree chainActs 2 =
      [ActivityNode.mk 1 "A" none 1 [ActivityNode.mk 2 "B" (some 1) 2 []]] := by
  refine ⟨?_, ?_, rfl⟩
  · intro n hn
    have h := mem_atDepth_buildNodes max_level _ none (max_level - 1) n hn
    exact h.2 (by omega)
  · intro d hd
    rw [List.eq_nil_iff_forall_not_mem]
    intro n hn
    have h := mem_atDepth_buildNodes max_level _ none d n hn
    omega

/-- Witness for C4 at the chain with cap 2: node B sits at depth cap level 2
with an empty children list, and level 3 (depth 2) is empty even though C
exists in the input. -/
theorem build_activity_tree_depth_cap_witness :
    (ActivityNode.mk 2 "B" (some 1) 2 []).children = [] ∧
    atDepth 2 (build_activity_tree chainActs 2) = [] := by
  have h := build_activity_tree_depth_cap chainActs 2
  refine ⟨h.1 (ActivityNode.mk 2 "B" (some 1) 2 []) ?_, h.2.1 2 (by omega)⟩
  show _ ∈ atDepth 1 (build_activity_tree chainActs 2)
  rw [h.2.2]
  exact List.mem_singleton.mpr rfl

/-- The rows of `SELECT organization JOIN organization_activities WHERE
activity_id IN ids`: one copy of the organization per association row whose
activity id lies in `ids` (the association rows of an organization are its
`activities` list). -/
def by_activity_rows (orgs : List Organization) (ids : List Nat) :
    List Organization :=
  orgs.flatMap (fun o =>
    (o.activities.filter (fun aid => ids.contains aid)).map (fun _ => o))

/-- Embedding of `get_organizations_by_activity` (organization.py): with `tree = true`
the matching id set is the depth-3 descendant closure of `activity_id`,
otherwise just `[activity_id]`; organizations are joined with the
association table, filtered to those ids, paginated with
`offset`/`limit`. -/
def get_organizations_by_activity (orgs : List Organization)
    (acts : List Activity) (activity_id : Nat) (tree : Bool)
    (limit offset : Nat) : List Organization :=
  let ids := if tree then get_activity_descendants acts activity_id 3
    else [activity_id]
  ((by_activity_rows orgs ids).drop offset).take limit

theorem mem_by_activity_rows {orgs : List Organization} {ids : List Nat}
    {o : Organization} :
    o ∈ by_activity_rows orgs ids ↔
      o ∈ orgs ∧ ∃ c ∈ o.activities, c ∈ ids := by
  simp only [by_activity_rows, List.mem_flatMap, List.mem_map]
  constructor
  · rintro ⟨o2, ho2, x, hx, rfl⟩
    have hx2 := List.mem_filter.mp hx
    exact ⟨ho2, x, hx2.1, by simpa using hx2.2⟩
  · rintro ⟨ho, c, hc, hcin⟩
    exact ⟨o, ho, c, List.mem_filter.mpr ⟨hc, by simpa using hcin⟩, rfl⟩

/-- The seed of the end-to-end scenario: Food(1, L1) → Dairy(2, L2) →
Cheese(3, L3). -/
def demoActs : List Activity :=
  [⟨1, "Food", none, 1⟩, ⟨2, "Dairy", some 1, 2⟩, ⟨3, "Cheese", some 2, 3⟩]

/-- Organization O of the end-to-end scenario, tagged only at Dairy (id 2). -/
def orgO : Organization := ⟨10, "O", 1, [], [2]⟩

/-- C2: category matching.  With `tree = false` the query matches exactly
the organizations whose association set contains `aid` itself; with
`tree = true` it matches exactly those whose association set meets the
depth-3 descendant closure of `aid`; on the seeded scenario
Food→Dairy→Cheese with O tagged at Dairy, the tree query at Food includes O
and the exact query at Cheese does not. -/
theorem get_organizations_by_activity_spec (orgs : List Organization)
    (acts : List Activity) (aid : Nat) (limit : Nat)
    (hr : ∃ a ∈ acts, a.id = aid)
    (hflat : (by_activity_rows orgs [aid]).length ≤ limit)
    (htree :
      (by_activity_rows orgs (get_activity_descendants acts aid 3)).length ≤
        limit) :
    (∀ o, o ∈ get_organizations_by_activity orgs acts aid false limit 0 ↔
      o ∈ orgs ∧ aid ∈ o.activities) ∧
    (∀ o, o ∈ get_organizations_by_activity orgs acts aid true limit 0 ↔
      o ∈ orgs ∧ ∃ c ∈ o.activities, ∃ L, L ≤ 3 ∧ ReachLevel acts aid c L) ∧
    orgO ∈ get_organizations_by_activity [orgO] demoActs 1 true 100 0 ∧
    orgO ∉ get_organizations_by_activity [orgO] demoActs 3 false 100 0 := by
  refine ⟨?_, ?_, by decide, by decide⟩
  · intro o
    have hif : get_organizations_by_activity orgs acts aid false limit 0 =
        ((by_activity_rows orgs [aid]).drop 0).take limit := rfl
    rw [hif, List.drop_zero, List.take_of_length_le hflat,
      mem_by_activity_rows]
    simp [List.mem_singleton]
  · intro o
    have hif : get_organizations_by_activity orgs acts aid true limit 0 =
        ((by_activity_rows orgs
          (get_activity_descendants acts aid 3)).drop 0).take limit := rfl
    rw [hif, List.drop_zero, List.take_of_length_le htree,
      mem_by_activity_rows]
    constructor
    · rintro ⟨ho, c, hc, hcd⟩
      exact ⟨ho, c, hc, (mem_descendants_iff hr 3 (by omega) c).mp hcd⟩
    · rintro ⟨ho, c, hc, hL⟩
      exact ⟨ho, c, hc, (mem_descendants_iff hr 3 (by omega) c).mpr hL⟩

/-- Witness for C2 on the seeded scenario: Food is stored, the row sets fit
in the page, O is matched by the subtree query at Food and not by the exact
query at Cheese. -/
theorem get_organizations_by_activity_spec_witness :
    orgO ∈ get_organizations_by_activity [orgO] demoActs 1 true 100 0 ∧
    orgO ∉ get_organizations_by_activity [orgO] demoActs 3 false 100 0 :=
  have h := get_organizations_by_activity_spec [orgO] demoActs 1 100
    ⟨⟨1, "Food", none, 1⟩, by decide, rfl⟩ (by decide) (by decide)
  ⟨h.2.2.1, h.2.2.2⟩

/-- The `LocationQuery` parameter model: `lat` and `lon` are declared
required (`Field(...)`), the radius and the four bounding coordinates are
optional. -/
structure LocationQuery where
  lat : ℚ
  lon : ℚ
  radius : Option ℚ
  min_lat : Option ℚ
  max_lat : Option ℚ
  min_lon : Option ℚ
  max_lon : Option ℚ
deriving DecidableEq, Repr

/-- Parameter validation of `LocationQuery`: a raw request binds to a
`LocationQuery` only when both required fields `lat` and `lon` are present;
otherwise validation rejects the request before the endpoint body runs. -/
def parseLocationQuery (lat lon radius min_lat max_lat min_lon max_lon :
    Option ℚ) : Option LocationQuery :=
  match lat, lon with
  | some la, some lo => some ⟨la, lo, radius, min_lat, max_lat, min_lon, max_lon⟩
  | _, _ => none

/-- The rows of `SELECT organization JOIN building` (joined on
`organization.building_id = building.id`). -/
def locationRows (orgs : List Organization) (buildings : List Building) :
    List (Organization × Building) :=
  orgs.flatMap (fun o =>
    (buildings.filter (fun b => b.id == o.building_id)).map (fun b => (o, b)))

/-- The circular-region predicate of the radius branch:
`(latitude - lat)² + (longitude - lon)² ≤ radius²`, squared planar
comparison with no square root. -/
def inRadiusRow (latc lonc r : ℚ) (ob : Organization × Building) : Bool :=
  decide ((ob.2.latitude - latc) * (ob.2.latitude - latc) +
    (ob.2.longitude - lonc) * (ob.2.longitude - lonc) ≤ r * r)

/-- The bounding-box predicate: four inclusive comparisons. -/
def inBoxRow (minLat maxLat minLon maxLon : ℚ)
    (ob : Organization × Building) : Bool :=
  decide (minLat ≤ ob.2.latitude ∧ ob.2.latitude ≤ maxLat ∧
    minLon ≤ ob.2.longitude ∧ ob.2.longitude ≤ maxLon)

/-- Embedding of `get_organizations_by_location` (organization.py): if `radius` is set,
filter the joined rows by the squared-distance circle (the box fields are
ignored); otherwise, if all four bounds are set, filter by the inclusive
box; otherwise HTTP 400.  Pagination applies after the filter; the rows then
collapse to their organizations. -/
def get_organizations_by_location (orgs : List Organization)
    (buildings : List Building) (params : LocationQuery)
    (limit offset : Nat) : Except ApiError (List Organization) :=
  match params.radius with
  | some r =>
    .ok (((((locationRows orgs buildings).filter
      (inRadiusRow params.lat params.lon r)).drop offset).take limit).map
        Prod.fst)
  | none =>
    match params.min_lat, params.max_lat, params.min_lon, params.max_lon with
    | some minLat, some maxLat, some minLon, some maxLon =>
      .ok (((((locationRows orgs buildings).filter
        (inBoxRow minLat maxLat minLon maxLon)).drop offset).take limit).map
          Prod.fst)
    | _, _, _, _ =>
      .error (ApiError.http 400 "Укажите радиус или ограничение")

/-- C6: filter dispatch.  When `radius` is absent and at least one bounding
coordinate is absent, the request fails with HTTP 400 and no result list is
produced; whenever `radius` is present, the circular predicate is used,
whatever the (possibly partially set) bounding coordinates are. -/
theorem by_location_dispatch (orgs : List Organization)
    (buildings : List Building) (params : LocationQuery) (limit offset : Nat) :
    ((params.radius = none ∧ (params.min_lat = none ∨ params.max_lat = none ∨
        params.min_lon = none ∨ params.max_lon = none)) →
      get_organizations_by_location orgs buildings params limit offset =
        .error (ApiError.http 400 "Укажите радиус или ограничение") ∧
      ∀ l, get_organizations_by_location orgs buildings params limit offset ≠
        .ok l) ∧
    (∀ r, params.radius = some r →
      get_organizations_by_location orgs buildings params limit offset =
        .ok (((((locationRows orgs buildings).filter
          (inRadiusRow params.lat params.lon r)).drop offset).take limit).map
            Prod.fst)) := by
  constructor
  · rintro ⟨hrad, hbox⟩
    have herr : get_organizations_by_location orgs buildings params limit
        offset = .error (ApiError.http 400 "Укажите радиус или ограничение") := by
      rw [get_organizations_by_location, hrad]
      rcases hbox with h | h | h | h <;> rw [h] <;>
        rcases params.min_lat with _ | x <;>
        rcases params.max_lat with _ | y <;>
        rcases params.min_lon with _ | z <;>
        rcases params.max_lon with _ | w <;>
        rfl
    exact ⟨herr, fun l hl => by rw [herr] at hl; exact Except.noConfusion hl⟩
  · intro r hr
    rw [get_organizations_by_location, hr]

/-- Witness for C6: with radius absent and only `min_lat` set, the request
errors; with a radius set alongside a partial box, the circle filter is
used. -/
theorem by_location_dispatch_witness :
    get_organizations_by_location [] [] ⟨0, 0, none, some 1, none, none, none⟩
        10 0 =
      .error (ApiError.http 400 "Укажите радиус или ограничение") ∧
    get_organizations_by_location [] [] ⟨0, 0, some 5, some 1, none, none, none⟩
        10 0 =
      .ok ((((locationRows [] []).filter (inRadiusRow 0 0 5)).take 10).map
        Prod.fst) :=
  have h1 := by_location_dispatch [] [] ⟨0, 0, none, some 1, none, none, none⟩
    10 0
  have h2 := by_location_dispatch [] [] ⟨0, 0, some 5, some 1, none, none, none⟩
    10 0
  ⟨(h1.1 ⟨rfl, Or.inr (Or.inl rfl)⟩).1, h2.2 5 rfl⟩

theorem mem_locationRows {orgs : List Organization}
    {buildings : List Building} {o : Organization} {b : Building} :
    (o, b) ∈ locationRows orgs buildings ↔
      o ∈ orgs ∧ b ∈ buildings ∧ b.id = o.building_id := by
  simp only [locationRows, List.mem_flatMap, List.mem_map, List.mem_filter,
    beq_iff_eq, Prod.mk.injEq]
  constructor
  · rintro ⟨o2, ho2, b2, ⟨hb2, hid⟩, rfl, rfl⟩
    exact ⟨ho2, hb2, hid⟩
  · rintro ⟨ho, hb, hid⟩
    exact ⟨o, ho, b, ⟨hb, hid⟩, rfl, rfl⟩

/-- C7: geographic predicates.  With `radius` supplied, the returned list
holds exactly the organizations whose building satisfies
`(latitude - lat)² + (longitude - lon)² ≤ radius²` (squared planar
comparison, no square root); with the full box supplied and no radius, it
holds exactly those whose building satisfies the four inclusive bound
comparisons. -/
theorem by_location_predicates (orgs : List Organization)
    (buildings : List Building) (params : LocationQuery) (limit : Nat)
    (hlen : (locationRows orgs buildings).length ≤ limit) :
    (∀ r, params.radius = some r →
      ∃ l, get_organizations_by_location orgs buildings params limit 0 =
          .ok l ∧
        ∀ o, o ∈ l ↔ ∃ b ∈ buildings, b.id = o.building_id ∧ o ∈ orgs ∧
          (b.latitude - params.lat) ^ 2 + (b.longitude - params.lon) ^ 2 ≤
            r ^ 2) ∧
    (∀ minLat maxLat minLon maxLon, params.radius = none →
      params.min_lat = some minLat → params.max_lat = some maxLat →
      params.min_lon = some minLon → params.max_lon = some maxLon →
      ∃ l, get_organizations_by_location orgs buildings params limit 0 =
          .ok l ∧
        ∀ o, o ∈ l ↔ ∃ b ∈ buildings, b.id = o.building_id ∧ o ∈ orgs ∧
          minLat ≤ b.latitude ∧ b.latitude ≤ maxLat ∧
          minLon ≤ b.longitude ∧ b.longitude ≤ maxLon) := by
  constructor
  · intro r hr
    refine ⟨_, by rw [get_organizations_by_location, hr], ?_⟩
    intro o
    rw [List.drop_zero, List.take_of_length_le
      (le_trans (List.length_filter_le _ _) hlen)]
    simp only [List.mem_map, List.mem_filter, inRadiusRow,
      decide_eq_true_eq]
    constructor
    · rintro ⟨⟨o2, b⟩, ⟨hrow, hdist⟩, rfl⟩
      obtain ⟨ho, hb, hid⟩ := mem_locationRows.mp hrow
      exact ⟨b, hb, hid, ho, by
        calc (b.latitude - params.lat) ^ 2 + (b.longitude - params.lon) ^ 2
            = (b.latitude - params.lat) * (b.latitude - params.lat) +
              (b.longitude - params.lon) * (b.longitude - params.lon) := by
              rw [pow_two, pow_two]
          _ ≤ r * r := hdist
          _ = r ^ 2 := (pow_two r).symm⟩
    · rintro ⟨b, hb, hid, ho, hdist⟩
      refine ⟨(o, b), ⟨mem_locationRows.mpr ⟨ho, hb, hid⟩, ?_⟩, rfl⟩
      calc (b.latitude - params.lat) * (b.latitude - params.lat) +
            (b.longitude - params.lon) * (b.longitude - params.lon)
          = (b.latitude - params.lat) ^ 2 + (b.longitude - params.lon) ^ 2 := by
            rw [pow_two, pow_two]
        _ ≤ r ^ 2 := hdist
        _ = r * r := pow_two r
  · intro minLat maxLat minLon maxLon hr h1 h2 h3 h4
    refine ⟨_, by rw [get_organizations_by_location, hr, h1, h2, h3, h4], ?_⟩
    intro o
    rw [List.drop_zero, List.take_of_length_le
      (le_trans (List.length_filter_le _ _) hlen)]
    simp only [List.mem_map, List.mem_filter, inBoxRow, decide_eq_true_eq]
    constructor
    · rintro ⟨⟨o2, b⟩, ⟨hrow, hbox⟩, rfl⟩
      obtain ⟨ho, hb, hid⟩ := mem_locationRows.mp hrow
      exact ⟨b, hb, hid, ho, hbox.1, hbox.2.1, hbox.2.2.1, hbox.2.2.2⟩
    · rintro ⟨b, hb, hid, ho, hb1, hb2, hb3, hb4⟩
      exact ⟨(o, b), ⟨mem_locationRows.mpr ⟨ho, hb, hid⟩,
        hb1, hb2, hb3, hb4⟩, rfl⟩

/-- A sample organization in building 1 and the building itself, for the
location witnesses. -/
def org1 : Organization := ⟨1, "Org1", 1, [], []⟩

def bld1 : Building := ⟨1, "Addr1", 0, 0⟩

/-- Witness for C7: on one organization in a building at the origin, the
radius query with radius 1 and the full-box query both produce a list
characterised by their geometric predicate. -/
theorem by_location_predicates_witness :
    (∃ l, get_organizations_by_location [org1] [bld1]
        ⟨0, 0, some 1, none, none, none, none⟩ 10 0 = .ok l ∧
      ∀ o, o ∈ l ↔ ∃ b ∈ [bld1], b.id = o.building_id ∧ o ∈ [org1] ∧
        (b.latitude - 0) ^ 2 + (b.longitude - 0) ^ 2 ≤ (1 : ℚ) ^ 2) ∧
    (∃ l, get_organizations_by_location [org1] [bld1]
        ⟨0, 0, none, some (-1), some 1, some (-1), some 1⟩ 10 0 = .ok l ∧
      ∀ o, o ∈ l ↔ ∃ b ∈ [bld1], b.id = o.building_id ∧ o ∈ [org1] ∧
        (-1 : ℚ) ≤ b.latitude ∧ b.latitude ≤ 1 ∧
        (-1 : ℚ) ≤ b.longitude ∧ b.longitude ≤ 1) :=
  ⟨(by_location_predicates [org1] [bld1] ⟨0, 0, some 1, none, none, none, none⟩
      10 (by decide)).1 1 rfl,
    (by_location_predicates [org1] [bld1]
      ⟨0, 0, none, some (-1), some 1, some (-1), some 1⟩ 10 (by decide)).2
      (-1) 1 (-1) 1 rfl rfl rfl rfl rfl⟩

/-- C10: `lat`/`lon` are required.  A raw request that supplies all four
bounding coordinates but omits `lat` or `lon` never binds to a
`LocationQuery`, so the radius-or-box dispatch never runs for it. -/
theorem location_center_required (lat lon radius min_lat max_lat min_lon
    max_lon : Option ℚ) (_hbox : min_lat.isSome ∧ max_lat.isSome ∧
      min_lon.isSome ∧ max_lon.isSome)
    (hmiss : lat = none ∨ lon = none) :
    parseLocationQuery lat lon radius min_lat max_lat min_lon max_lon =
      none := by
  rcases hmiss with h | h
  · rw [h]
    rcases lon with _ | lo <;> rfl
  · rw [h]
    rcases lat with _ | la <;> rfl

/-- Witness for C10: a complete box with no center is rejected by parameter
validation. -/
theorem location_center_required_witness :
    parseLocationQuery none (some 0) none (some 0) (some 1) (some 0) (some 1)
      = none :=
  location_center_required none (some 0) none (some 0) (some 1) (some 0)
    (some 1) ⟨rfl, rfl, rfl, rfl⟩ (Or.inl rfl)

/-- The partial-update schema `OrganizationUpdate`: each field holds
`some v` when supplied, `none` when unset. -/
structure OrganizationUpdate where
  name : Option String
  building_id : Option Nat
  phone_numbers : Option (List String)
  activity_ids : Option (List Nat)
deriving DecidableEq, Repr

/-- Embedding of `OrganizationCRUD.update` (crud/organization.py): when `phone_numbers`
is supplied, the phone association set is reset to empty and rebuilt from
the supplied numbers (each number resolved by `get_or_create_phone`, keyed
by its unique number); when `activity_ids` is supplied, the category
association set is reset and rebuilt from the supplied ids, keeping only ids
that resolve to a stored activity; the remaining supplied scalar fields are
then applied. -/
def update_organization (acts : List Activity) (o : Organization)
    (patch : OrganizationUpdate) : Organization :=
  let o1 : Organization := match patch.phone_numbers with
    | none => o
    | some nums => { o with phones := nums }
  let o2 : Organization := match patch.activity_ids with
    | none => o1
    | some ids =>
      { o1 with activities :=
          ids.filter (fun i =>
            (acts.find? (fun (a : Activity) => a.id == i)).isSome) }
  { o2 with
    name := patch.name.getD o2.name
    building_id := patch.building_id.getD o2.building_id }

/-- C8: full-replacement association update.  Supplying `phone_numbers`
makes the phone association set exactly the supplied list, discarding the
prior set; supplying `activity_ids` whose ids are all stored makes the
category association set exactly the supplied list; supplying the empty
list clears the associations whatever the prior state; a field left unset
leaves its association set unchanged. -/
theorem update_organization_replaces (acts : List Activity)
    (o : Organization) (patch : OrganizationUpdate) :
    (∀ nums, patch.phone_numbers = some nums →
      (update_organization acts o patch).phones = nums) ∧
    (patch.phone_numbers = none →
      (update_organization acts o patch).phones = o.phones) ∧
    (∀ ids, patch.activity_ids = some ids →
      (∀ i ∈ ids, ∃ a ∈ acts, a.id = i) →
      (update_organization acts o patch).activities = ids) ∧
    (patch.activity_ids = none →
      (update_organization acts o patch).activities = o.activities) ∧
    (patch.activity_ids = some [] →
      (update_organization acts o patch).activities = []) := by
  refine ⟨?_, ?_, ?_, ?_, ?_⟩
  · intro nums hn
    rw [update_organization, hn]
    cases patch.activity_ids <;> rfl
  · intro hn
    rw [update_organization, hn]
    cases patch.activity_ids <;> rfl
  · intro ids hi hall
    rw [update_organization, hi]
    show List.filter _ ids = ids
    refine List.filter_eq_self.mpr (fun i hmem => ?_)
    obtain ⟨a, ha, hid⟩ := hall i hmem
    have hfind : (acts.find? (fun (x : Activity) => x.id == i)).isSome :=
      List.find?_isSome.mpr ⟨a, ha, by simp [hid]⟩
    simpa using hfind
  · intro hi
    rw [update_organization, hi]
    cases patch.phone_numbers <;> rfl
  · intro hi
    rw [update_organization, hi]
    cases patch.phone_numbers <;> rfl

/-- Witness for C8: updating an organization that has phones and categories
with new lists installs exactly those lists; the empty category list clears
the associations. -/
theorem update_organization_replaces_witness :
    (update_organization chainActs ⟨7, "O7", 1, ["111"], [1, 2]⟩
      ⟨none, none, some ["222", "333"], some [3]⟩).phones = ["222", "333"] ∧
    (update_organization chainActs ⟨7, "O7", 1, ["111"], [1, 2]⟩
      ⟨none, none, some ["222", "333"], some [3]⟩).activities = [3] ∧
    (update_organization chainActs ⟨7, "O7", 1, ["111"], [1, 2]⟩
      ⟨none, none, none, some []⟩).activities = [] :=
  have h1 := update_organization_replaces chainActs ⟨7, "O7", 1, ["111"], [1, 2]⟩
    ⟨none, none, some ["222", "333"], some [3]⟩
  have h2 := update_organization_replaces chainActs ⟨7, "O7", 1, ["111"], [1, 2]⟩
    ⟨none, none, none, some []⟩
  ⟨h1.1 ["222", "333"] rfl,
    h1.2.2.1 [3] rfl (fun i hi => ⟨⟨3, "C", some 2, 3⟩, by decide,
      by cases hi with
        | head => rfl
        | tail _ h => exact absurd h (List.not_mem_nil i)⟩),
    h2.2.2.2.2 rfl⟩

/-- Embedding of `delete_building` (building.py): look the building up by id (404 when
absent); when any organization references it, fail with HTTP 400 and leave
the store untouched; otherwise remove it from the store. -/
def delete_building (buildings : List Building) (orgs : List Organization)
    (building_id : Nat) : Except ApiError (List Building) :=
  match buildings.find? (fun b => b.id == building_id) with
  | none => .error (ApiError.http 404 "Building not found")
  | some b =>
    if orgs.any (fun o => o.building_id == b.id) then
      .error (ApiError.http 400
        "Невозможно удалить здание: существуют связанные организации.")
    else
      .ok (buildings.filter (fun x => !(x.id == building_id)))

/-- C9: building deletion guard.  For a stored building, deletion fails
with the explicit HTTP 400 conflict (and no store is produced) as soon as
one organization references it, and with no referencing organization it
succeeds, the new store holding exactly the buildings with a different
id. -/
theorem delete_building_guard (buildings : List Building)
    (orgs : List Organization) (bid : Nat)
    (hb : ∃ b ∈ buildings, b.id = bid) :
    ((∃ o ∈ orgs, o.building_id = bid) →
      delete_building buildings orgs bid =
        .error (ApiError.http 400
          "Невозможно удалить здание: существуют связанные организации.") ∧
      ∀ l, delete_building buildings orgs bid ≠ .ok l) ∧
    ((∀ o ∈ orgs, o.building_id ≠ bid) →
      ∃ l, delete_building buildings orgs bid = .ok l ∧
        ∀ x, x ∈ l ↔ x ∈ buildings ∧ x.id ≠ bid) := by
  obtain ⟨b0, hb0, hid0⟩ := hb
  have hfind : (buildings.find? (fun b => b.id == bid)).isSome :=
    List.find?_isSome.mpr ⟨b0, hb0, by simp [hid0]⟩
  obtain ⟨b, hbeq⟩ := Option.isSome_iff_exists.mp hfind
  have hbid : b.id = bid := by
    have := List.find?_some hbeq
    simpa using this
  constructor
  · rintro ⟨o, ho, hobid⟩
    have hany : orgs.any (fun o => o.building_id == b.id) = true :=
      List.any_eq_true.mpr ⟨o, ho, by simp [hobid, hbid]⟩
    have herr : delete_building buildings orgs bid =
        .error (ApiError.http 400
          "Невозможно удалить здание: существуют связанные организации.") := by
      rw [delete_building, hbeq]
      simp [hany]
    exact ⟨herr, fun l hl => by rw [herr] at hl; exact Except.noConfusion hl⟩
  · intro hnone
    have hany : orgs.any (fun o => o.building_id == b.id) = false := by
      rw [Bool.eq_false_iff]
      intro h
      obtain ⟨o, ho, hbeq2⟩ := List.any_eq_true.mp h
      exact hnone o ho (by rw [← hbid]; simpa using hbeq2)
    refine ⟨buildings.filter (fun x => !(x.id == bid)), ?_, ?_⟩
    · rw [delete_building, hbeq]
      simp [hany]
    · intro x
      simp [List.mem_filter]

/-- Witness for C9 on a two-building store: deleting building 1, referenced
by an organization, errors; deleting unreferenced building 2 succeeds and
leaves exactly building 1. -/
theorem delete_building_guard_witness :
    delete_building [bld1, ⟨2, "Addr2", 1, 1⟩] [org1] 1 =
      .error (ApiError.http 400
        "Невозможно удалить здание: существуют связанные организации.") ∧
    ∃ l, delete_building [bld1, ⟨2, "Addr2", 1, 1⟩] [org1] 2 = .ok l ∧
      ∀ x, x ∈ l ↔ x ∈ [bld1, ⟨2, "Addr2", 1, 1⟩] ∧ x.id ≠ 2 :=
  have h1 := delete_building_guard [bld1, ⟨2, "Addr2", 1, 1⟩] [org1] 1
    ⟨bld1, by decide, rfl⟩
  have h2 := delete_building_guard [bld1, ⟨2, "Addr2", 1, 1⟩] [org1] 2
    ⟨⟨2, "Addr2", 1, 1⟩, by decide, rfl⟩
  ⟨(h1.1 ⟨org1, by decide, rfl⟩).1,
    h2.2 (fun o ho => by
      cases ho with
      | head => decide
      | tail _ h => exact absurd h (List.not_mem_nil o))⟩

end DirectoryApp
